import Mathlib

/-!
# Shallow embedding of the datahaven-monitor orchestration core

This file embeds, as executable Lean definitions, the control flow of the
staged pipeline engines and of the wait/poll/retry/concurrency primitives of
the `datahaven-monitor` repository, and proves (or refutes) the specified
properties about them.

Embedded source locations:
* `src/src/monitor/index.ts` — the light monitor pipeline (`runMonitor`,
  `runStage`, `cleanup`) and its exit-code and badge contract.
* `src/src/monitor/utils/badges.ts` — `generateBadges`.
* `src/src/monitor/utils/waits.ts` — `waitForOnChainData`, `pollBackend`.
* `src/src/monitor-heavy/index.ts` — `uploadWithRetry`, `withConcurrency`,
  and the `forFinalizedEvent` / `finalizedAtLeast` helpers of the user-api
  wrapper embedded in the same file.
* `src/src/_archive/sanity-old/healthcheck.ts` — the checkpoint-parameterized
  pipeline engine `runSanitySuite` with `shouldStopAt` and its artifact-aware
  `cleanup`.

Asynchronous behaviour is embedded by making the environment explicit: the
outcome of each invocation of an external operation (a stage function, a
backend query, an upload attempt, a block inspection) is an input to the
embedded function, and wall-clock time is threaded explicitly, with every
`sleep(d)` advancing it by `d` and every external call advancing it by that
call's stated duration.
-/

namespace DatahavenMonitor

/-! ## Data model: stage statuses and results (`src/src/monitor/types.ts`) -/

/-- Status of one pipeline stage, as recorded in a `StageResult`. -/
inductive StageStatus where
  | passed
  | failed
  | skipped
  deriving DecidableEq, Repr

/-- Record `StageResult` from `src/src/monitor/types.ts`:
`{ stage, status, duration, error? }`. -/
structure StageResult where
  stage : String
  status : StageStatus
  duration : Nat
  error : Option String := none
  deriving DecidableEq, Repr

/-- The behaviour of one stage on a given run: its name, the outcome of its
stage function on this run's context (`.ok` = returns normally, `.error msg`
= throws with message `msg`), and how long the stage function runs. -/
structure StageSpec where
  name : String
  outcome : Except String Unit
  duration : Nat
  deriving Repr

/-! ## Badge generation (`src/src/monitor/utils/badges.ts`) -/

/-- Record `BadgeEndpoint` from `badges.ts`. -/
structure BadgeEndpoint where
  schemaVersion : Nat
  label : String
  message : String
  color : String
  cacheSeconds : Nat
  deriving DecidableEq, Repr

/-- Lookup `STAGE_LABELS` from `badges.ts`; `STAGE_LABELS[result.stage] ||
result.stage`. -/
def stageLabel (stage : String) : String :=
  if stage = "connection" then "Connection"
  else if stage = "health" then "Health"
  else if stage = "auth" then "Auth (SIWE)"
  else if stage = "bucket-create" then "Bucket Create"
  else if stage = "storage-request" then "Storage Request"
  else if stage = "file-upload" then "File Upload"
  else if stage = "file-download" then "File Download"
  else if stage = "file-delete" then "File Delete"
  else if stage = "bucket-delete" then "Bucket Delete"
  else stage

/-- Map `STATUS_COLORS` from `badges.ts`. -/
def statusColor : StageStatus → String
  | .passed => "brightgreen"
  | .failed => "red"
  | .skipped => "lightgrey"

/-- The `message` field of a per-stage badge is the status string. -/
def statusMessage : StageStatus → String
  | .passed => "passed"
  | .failed => "failed"
  | .skipped => "skipped"

/-- Function `generateBadges` from `badges.ts`: one `<stage>.json` badge file per
entry of `results`, followed by the `status.json` summary badge. Each list
element is (file name, badge written to it). -/
def generateBadges (results : List StageResult) : List (String × BadgeEndpoint) :=
  (results.map fun r =>
    (r.stage ++ ".json",
      { schemaVersion := 1
        label := stageLabel r.stage
        message := statusMessage r.status
        color := statusColor r.status
        cacheSeconds := 300 })) ++
  [("status.json",
    let passed := (results.filter fun r => r.status = .passed).length
    let failed := (results.filter fun r => r.status = .failed).length
    let total := results.length
    { schemaVersion := 1
      label := "Monitor Status"
      message :=
        if failed > 0 then s!"{failed}/{total} failed" else s!"{passed}/{total} passed"
      color := if failed > 0 then "red" else "brightgreen"
      cacheSeconds := 300 })]

/-! ## Light monitor pipeline (`src/src/monitor/index.ts`)

`runMonitor` iterates over `STAGES`; once a stage has failed, every later
stage gets an explicit `skipped` entry and its stage function is not invoked
(`runStage` is only called on the non-failed path).  The embedding returns,
besides the results list, the list of **indices** of the stages whose stage
function was actually invoked, and the final value of the `failed` flag. -/

/-- The stage loop of `runMonitor` (lines 101–115), fused with `runStage`
(lines 30–54). `i` is the index of the first stage of the remaining list;
`failed` is the mutable flag. Returns (results pushed, indices of stages
whose function ran, final `failed` flag). -/
def monitorLoop : List StageSpec → Nat → Bool → List StageResult × List Nat × Bool
  | [], _, failed => ([], [], failed)
  | s :: rest, i, failed =>
    if failed then
      let r := monitorLoop rest (i + 1) true
      ({ stage := s.name, status := .skipped, duration := 0 } :: r.1, r.2.1, r.2.2)
    else
      match s.outcome with
      | .ok _ =>
        let r := monitorLoop rest (i + 1) false
        ({ stage := s.name, status := .passed, duration := s.duration } :: r.1,
          i :: r.2.1, r.2.2)
      | .error e =>
        let r := monitorLoop rest (i + 1) true
        ({ stage := s.name, status := .failed, duration := s.duration, error := some e } :: r.1,
          i :: r.2.1, r.2.2)

/-- Outcome of a whole `runMonitor` run: the results list, the indices of the
stages whose stage function was invoked, the badge files written in the
`finally` block, and the process exit code. -/
structure MonitorRun where
  results : List StageResult
  executed : List Nat
  badges : List (String × BadgeEndpoint)
  exitCode : Nat
  deriving Repr

/-- Function `runMonitor` (lines 96–150).  Here `fatal = some e` models an unhandled error
escaping the `try` block (caught at line 116, setting `failed = true`); the
`finally` block then still runs `generateBadges` and sets the exit code from
the `failed` flag. -/
def runMonitor (stages : List StageSpec) (fatal : Option String) : MonitorRun :=
  let r := monitorLoop stages 0 false
  let failed := r.2.2 || fatal.isSome
  { results := r.1
    executed := r.2.1
    badges := generateBadges r.1
    exitCode := if failed then 1 else 0 }

/-! ### Invariants of the monitor loop -/

/-- The loop pushes exactly one result per stage. -/
theorem monitorLoop_length (ss : List StageSpec) (i : Nat) (b : Bool) :
    (monitorLoop ss i b).1.length = ss.length := by
  induction ss generalizing i b with
  | nil => simp [monitorLoop]
  | cons s rest ih =>
    cases b with
    | true => simp [monitorLoop, ih]
    | false =>
      cases h : s.outcome with
      | ok u => simp [monitorLoop, h, ih]
      | error e => simp [monitorLoop, h, ih]

/-- Results are pushed in pipeline order: the `j`-th result belongs to the
`j`-th stage. -/
theorem monitorLoop_stage_name (ss : List StageSpec) (i : Nat) (b : Bool)
    (j : Nat) (hj : j < (monitorLoop ss i b).1.length) (hj' : j < ss.length) :
    ((monitorLoop ss i b).1.get ⟨j, hj⟩).stage = (ss.get ⟨j, hj'⟩).name := by
  induction ss generalizing i b j with
  | nil => exact absurd hj' (by simp)
  | cons s rest ih =>
    cases b with
    | true =>
      cases j with
      | zero => simp [monitorLoop]
      | succ j =>
        have hj2 : j < (monitorLoop rest (i + 1) true).1.length := by
          have := hj; simpa [monitorLoop] using this
        simpa [monitorLoop] using ih (i + 1) true j hj2 (by simpa using hj')
    | false =>
      cases h : s.outcome with
      | ok u =>
        cases j with
        | zero => simp [monitorLoop, h]
        | succ j =>
          have hj2 : j < (monitorLoop rest (i + 1) false).1.length := by
            have := hj; simpa [monitorLoop, h] using this
          simpa [monitorLoop, h] using ih (i + 1) false j hj2 (by simpa using hj')
      | error e =>
        cases j with
        | zero => simp [monitorLoop, h]
        | succ j =>
          have hj2 : j < (monitorLoop rest (i + 1) true).1.length := by
            have := hj; simpa [monitorLoop, h] using this
          simpa [monitorLoop, h] using ih (i + 1) true j hj2 (by simpa using hj')

/-- Once the `failed` flag is set, every remaining stage is pushed as
`skipped` and no remaining stage function executes. -/
theorem monitorLoop_failed_all_skipped (ss : List StageSpec) (i : Nat) :
    (∀ r ∈ (monitorLoop ss i true).1, r.status = .skipped) ∧
      (monitorLoop ss i true).2.1 = [] := by
  induction ss generalizing i with
  | nil => simp [monitorLoop]
  | cons s rest ih =>
    refine ⟨?_, ?_⟩
    · intro r hr
      rw [monitorLoop] at hr
      rcases List.mem_cons.mp hr with h | h
      · rw [h]
      · exact (ih (i + 1)).1 r h
    · rw [monitorLoop]
      exact (ih (i + 1)).2

/-- After a `failed` result at position `j`, every later result is `skipped`
and the index of every later stage is absent from the executed-stage list. -/
theorem monitorLoop_fail_truncates (ss : List StageSpec) (i : Nat) (b : Bool)
    (j k : Nat) (hj : j < (monitorLoop ss i b).1.length)
    (hk : k < (monitorLoop ss i b).1.length) (hjk : j < k)
    (hfail : ((monitorLoop ss i b).1.get ⟨j, hj⟩).status = .failed) :
    ((monitorLoop ss i b).1.get ⟨k, hk⟩).status = .skipped ∧
      (i + k) ∉ (monitorLoop ss i b).2.1 := by
  induction ss generalizing i b j k with
  | nil => exact absurd hj (by simp [monitorLoop])
  | cons s rest ih =>
    cases b with
    | true =>
      exact absurd
        ((monitorLoop_failed_all_skipped (s :: rest) i).1 _
          (List.get_mem _ j hj))
        (by rw [hfail]; simp)
    | false =>
      cases h : s.outcome with
      | ok u =>
        cases j with
        | zero =>
          have : (StageStatus.passed : StageStatus) = .failed := by
            simpa [monitorLoop, h] using hfail
          exact absurd this (by simp)
        | succ j =>
          cases k with
          | zero => exact absurd hjk (by simp)
          | succ k =>
            have hj2 : j < (monitorLoop rest (i + 1) false).1.length := by
              have := hj; simpa [monitorLoop, h] using this
            have hk2 : k < (monitorLoop rest (i + 1) false).1.length := by
              have := hk; simpa [monitorLoop, h] using this
            have hfail2 :
                ((monitorLoop rest (i + 1) false).1.get ⟨j, hj2⟩).status = .failed := by
              simpa [monitorLoop, h] using hfail
            have hrec := ih (i + 1) false j k hj2 hk2 (by omega) hfail2
            refine ⟨by simpa [monitorLoop, h] using hrec.1, ?_⟩
            have hne : i + (k + 1) ≠ i := by omega
            have : i + (k + 1) ∉ (monitorLoop rest (i + 1) false).2.1 := by
              have := hrec.2
              have heq : i + 1 + k = i + (k + 1) := by omega
              rwa [heq] at this
            simp [monitorLoop, h, hne, this]
      | error e =>
        cases j with
        | zero =>
          cases k with
          | zero => exact absurd hjk (by simp)
          | succ k =>
            have hk2 : k < (monitorLoop rest (i + 1) true).1.length := by
              have := hk; simpa [monitorLoop, h] using this
            have hall := monitorLoop_failed_all_skipped rest (i + 1)
            refine ⟨?_, ?_⟩
            · have : ((monitorLoop rest (i + 1) true).1.get ⟨k, hk2⟩).status = .skipped :=
                hall.1 _ (List.get_mem _ k hk2)
              simpa [monitorLoop, h] using this
            · have hne : i + (k + 1) ≠ i := by omega
              simp [monitorLoop, h, hne, hall.2]
        | succ j =>
          have hj2 : j < (monitorLoop rest (i + 1) true).1.length := by
            have := hj; simpa [monitorLoop, h] using this
          have hall := monitorLoop_failed_all_skipped rest (i + 1)
          have : ((monitorLoop rest (i + 1) true).1.get ⟨j, hj2⟩).status = .skipped :=
            hall.1 _ (List.get_mem _ j hj2)
          have hfail2 :
          ((monitorLoop rest (i + 1) true).1.get ⟨j, hj2⟩).status = .failed := by
            simpa [monitorLoop, h] using hfail
          rw [hfail2] at this
          exact absurd this (by simp)

/-- The final `failed` flag is set exactly when some pushed result is
`failed` (or the flag was already set). -/
theorem monitorLoop_flag (ss : List StageSpec) (i : Nat) (b : Bool) :
    (monitorLoop ss i b).2.2 =
      (((monitorLoop ss i b).1.any fun r => r.status = .failed) || b) := by
  induction ss generalizing i b with
  | nil => simp [monitorLoop]
  | cons s rest ih =>
    cases b with
    | true =>
      have hall := monitorLoop_failed_all_skipped (s :: rest) i
      have : ((monitorLoop (s :: rest) i true).1.any fun r => r.status = .failed) = false := by
        rw [List.any_eq_false]
        intro r hr
        have := hall.1 r hr
        simp [this]
      rw [this]
      simp [monitorLoop, ih]
    | false =>
      cases h : s.outcome with
      | ok u => simp [monitorLoop, h, ih]
      | error e => simp [monitorLoop, h, ih]

/-- C1: in every run, if stage `j`'s result is `failed` then no stage after
`j` executes its stage function and every later stage receives an explicit
`skipped` entry; the results list has exactly one entry per pipeline stage,
in pipeline order. -/
theorem monitor_stage_failure_truncation (stages : List StageSpec) (fatal : Option String) :
    (runMonitor stages fatal).results.length = stages.length ∧
    (∀ j (hj : j < (runMonitor stages fatal).results.length) (hj' : j < stages.length),
      ((runMonitor stages fatal).results.get ⟨j, hj⟩).stage = (stages.get ⟨j, hj'⟩).name) ∧
    (∀ j k (hj : j < (runMonitor stages fatal).results.length)
        (hk : k < (runMonitor stages fatal).results.length),
      j < k → ((runMonitor stages fatal).results.get ⟨j, hj⟩).status = .failed →
      ((runMonitor stages fatal).results.get ⟨k, hk⟩).status = .skipped ∧
        k ∉ (runMonitor stages fatal).executed) := by
  refine ⟨monitorLoop_length stages 0 false, ?_, ?_⟩
  · intro j hj hj'
    exact monitorLoop_stage_name stages 0 false j hj hj'
  · intro j k hj hk hjk hfail
    have := monitorLoop_fail_truncates stages 0 false j k hj hk hjk hfail
    simpa using this

/-- Witness for C1 on a concrete three-stage run whose second stage fails. -/
theorem monitor_stage_failure_truncation_witness :
    ((runMonitor [⟨"connection", .ok (), 5⟩, ⟨"health", .error "boom", 7⟩,
        ⟨"auth", .ok (), 3⟩] none).results.get ⟨2, by decide⟩).status = .skipped ∧
      2 ∉ (runMonitor [⟨"connection", .ok (), 5⟩, ⟨"health", .error "boom", 7⟩,
        ⟨"auth", .ok (), 3⟩] none).executed :=
  (monitor_stage_failure_truncation _ none).2.2 1 2 (by decide) (by decide)
    (by decide) (by decide)

/-- C9: the exit code is 0 iff every executed (non-skipped) stage passed (in
the absence of an unhandled escaping error); any stage failure or unhandled
error forces exit code 1; and the per-stage badge files plus the
`status.json` summary are written in all cases, regardless of exit code. -/
theorem monitor_exit_code_and_badges (stages : List StageSpec) (fatal : Option String) :
    (fatal = none →
      ((runMonitor stages fatal).exitCode = 0 ↔
        ∀ r ∈ (runMonitor stages fatal).results, r.status ≠ .skipped → r.status = .passed)) ∧
    ((∃ r ∈ (runMonitor stages fatal).results, r.status = .failed) ∨ fatal ≠ none →
      (runMonitor stages fatal).exitCode = 1) ∧
    (runMonitor stages fatal).badges.map Prod.fst =
      (runMonitor stages fatal).results.map (fun r => r.stage ++ ".json") ++ ["status.json"] := by
  refine ⟨?_, ?_, ?_⟩
  · rintro rfl
    simp only [runMonitor, Option.isSome_none, Bool.or_false]
    rw [monitorLoop_flag stages 0 false]
    simp only [Bool.or_false]
    by_cases hany : ((monitorLoop stages 0 false).1.any fun r => r.status = .failed) = true
    · rw [if_pos hany]
      constructor
      · intro h0
        exact absurd h0 one_ne_zero
      · intro hall
        obtain ⟨r, hr, hrf⟩ := List.any_eq_true.mp hany
        simp only [decide_eq_true_eq] at hrf
        have hp := hall r hr (by simp [hrf])
        rw [hrf] at hp
        exact absurd hp (by simp)
    · rw [if_neg hany]
      have hx : ((monitorLoop stages 0 false).1.any fun r => r.status = .failed) = false := by
        simpa using hany
      have hnof := List.any_eq_false.mp hx
      constructor
      · intro _ r hr hns
        have := hnof r hr
        simp only [decide_eq_true_eq] at this
        cases hstat : r.status with
        | passed => rfl
        | failed => exact absurd hstat this
        | skipped => exact absurd hstat hns
      · intro _
        rfl
  · intro h
    simp only [runMonitor]
    rcases h with ⟨r, hr, hrf⟩ | hf
    · rw [monitorLoop_flag stages 0 false]
      have : ((monitorLoop stages 0 false).1.any fun r => r.status = .failed) = true := by
        rw [List.any_eq_true]
        exact ⟨r, by simpa [runMonitor] using hr, by simp [hrf]⟩
      simp [this]
    · have : fatal.isSome = true := Option.ne_none_iff_isSome.mp hf
      simp [this]
  · simp [runMonitor, generateBadges]

/-- Witness for C9: a run whose only stage fails exits with code 1. -/
theorem monitor_exit_code_and_badges_witness :
    (runMonitor [⟨"health", .error "down", 2⟩] none).exitCode = 1 :=
  (monitor_exit_code_and_badges [⟨"health", .error "down", 2⟩] none).2.1
    (Or.inl (by decide))

/-! ## Wait/poll primitives (`src/src/monitor/utils/waits.ts`)

Each primitive's environment is a function from the attempt index to the
behaviour of that invocation of the underlying check: the value returned or
the error thrown, and the call's duration.  The embedding returns the
primitive's outcome together with the total elapsed time (check durations
plus sleeps). -/

/-- One invocation of the `query` passed to `waitForOnChainData`. -/
structure QueryStep (T : Type) where
  result : Except String T
  duration : Nat

/-- Outcome of `waitForOnChainData`: the validated value, the timeout error,
or an error thrown by `query` propagating out of the primitive. -/
inductive WaitOutcome (T : Type) where
  | success (value : T)
  | timedOut
  | raised (msg : String)
  deriving DecidableEq, Repr

/-- The `for` loop of `waitForOnChainData` (waits.ts lines 26–31): there is
no `try`/`catch`, so an error from `query()` propagates immediately. `r` is
the number of remaining iterations, `i` the current attempt index. -/
def waitForOnChainDataGo (query : Nat → QueryStep T) (validator : T → Bool)
    (delayMs : Nat) : Nat → Nat → WaitOutcome T × Nat
  | 0, _ => (.timedOut, 0)
  | r + 1, i =>
    let q := query i
    match q.result with
    | .error e => (.raised e, q.duration)
    | .ok data =>
      if validator data then (.success data, q.duration)
      else
        let w := waitForOnChainDataGo query validator delayMs r (i + 1)
        (w.1, q.duration + delayMs + w.2)

/-- Function `waitForOnChainData` (waits.ts lines 21–32). -/
def waitForOnChainData (query : Nat → QueryStep T) (validator : T → Bool)
    (retries delayMs : Nat) : WaitOutcome T × Nat :=
  waitForOnChainDataGo query validator delayMs retries 0

/-- One invocation of the `fetchFn` passed to `pollBackend`. -/
structure FetchStep where
  result : Except String Bool
  duration : Nat

/-- Outcome of `pollBackend`: success on the first `true`, else timeout.
There is no error outcome: the loop body catches everything. -/
inductive PollOutcome where
  | success
  | timedOut
  deriving DecidableEq, Repr

/-- The `for` loop of `pollBackend` (waits.ts lines 41–49): the body wraps
`fetchFn()` in `try`/`catch`, so a thrown error is ignored and polling
continues after the sleep, exactly like a `false` result. -/
def pollBackendGo (fetchFn : Nat → FetchStep) (delayMs : Nat) :
    Nat → Nat → PollOutcome × Nat
  | 0, _ => (.timedOut, 0)
  | r + 1, i =>
    let f := fetchFn i
    match f.result with
    | .ok true => (.success, f.duration)
    | .ok false =>
      let w := pollBackendGo fetchFn delayMs r (i + 1)
      (w.1, f.duration + delayMs + w.2)
    | .error _ =>
      let w := pollBackendGo fetchFn delayMs r (i + 1)
      (w.1, f.duration + delayMs + w.2)

/-- Function `pollBackend` (waits.ts lines 37–51). -/
def pollBackend (fetchFn : Nat → FetchStep) (retries delayMs : Nat) : PollOutcome × Nat :=
  pollBackendGo fetchFn delayMs retries 0

/-- Replace every error thrown by the backend check with an `ok false`
("not yet satisfied") answer of the same duration. -/
def errorsAsNotReady (fetchFn : Nat → FetchStep) : Nat → FetchStep :=
  fun n =>
    { result := .ok (match (fetchFn n).result with
        | .ok b => b
        | .error _ => false)
      duration := (fetchFn n).duration }

/-- C4 counterexample: `waitForOnChainData` does **not** swallow an error
raised by its query.  With 3 retries of budget remaining, a query that
throws on the very first attempt makes the primitive fail immediately with
that error (elapsed time 1 = just the failing call), instead of continuing
to poll. -/
theorem wait_error_swallowed_counterexample :
    waitForOnChainData (fun _ => ⟨Except.error "ECONNRESET", 1⟩)
      (fun _ : Nat => true) 3 5 = (.raised "ECONNRESET", 1) := by
  rfl

/-- Helper for C4: `pollBackendGo` is unchanged when thrown errors are
replaced by `false` answers. -/
theorem pollGo_congr (fetchFn : Nat → FetchStep) (delayMs : Nat) :
    ∀ r i, pollBackendGo fetchFn delayMs r i =
      pollBackendGo (errorsAsNotReady fetchFn) delayMs r i := by
  intro r
  induction r with
  | zero => intro i; rfl
  | succ n ih =>
    intro i
    rw [pollBackendGo, pollBackendGo]
    cases hf : (fetchFn i).result with
    | ok b =>
      cases b with
      | true => simp [errorsAsNotReady, hf]
      | false => simp [errorsAsNotReady, hf, ih (i + 1)]
    | error e => simp [errorsAsNotReady, hf, ih (i + 1)]

/-- C4 (amended): `pollBackend` swallows errors of the underlying check and
treats them exactly as "not yet satisfied" (its behaviour is unchanged when
every thrown error is replaced by a `false` answer), while
`waitForOnChainData` propagates a query error immediately as its own
failure, regardless of remaining budget. -/
theorem wait_error_handling (fetchFn : Nat → FetchStep) (retries delayMs : Nat)
    (query : Nat → QueryStep T) (validator : T → Bool) (r i : Nat) (e : String)
    (he : (query i).result = .error e) :
    pollBackend fetchFn retries delayMs =
      pollBackend (errorsAsNotReady fetchFn) retries delayMs ∧
    waitForOnChainDataGo query validator delayMs (r + 1) i =
      (.raised e, (query i).duration) := by
  constructor
  · exact pollGo_congr fetchFn delayMs retries 0
  · rw [waitForOnChainDataGo]
    simp only [he]

/-- Witness for the amended C4 at concrete inputs. -/
theorem wait_error_handling_witness :
    pollBackend (fun _ => ⟨Except.error "blip", 4⟩) 2 10 =
      pollBackend (errorsAsNotReady fun _ => ⟨Except.error "blip", 4⟩) 2 10 ∧
    waitForOnChainDataGo (fun _ => (⟨Except.error "down", 2⟩ : QueryStep Nat))
      (fun _ : Nat => true) 10 2 0 = (.raised "down", 2) :=
  wait_error_handling (fun _ => ⟨Except.error "blip", 4⟩) 2 10
    (fun _ => ⟨Except.error "down", 2⟩) (fun _ : Nat => true) 1 0 "down" rfl

/-- When the backend check never answers `true`, `pollBackend` times out and
the elapsed time is `retries * delayMs` plus the sum of all check durations
(the loop sleeps a full delay after every unsatisfied check). -/
theorem pollBackendGo_never (fetchFn : Nat → FetchStep) (delayMs : Nat)
    (hf : ∀ n, (fetchFn n).result ≠ Except.ok true) :
    ∀ r i, pollBackendGo fetchFn delayMs r i =
      (.timedOut, r * delayMs + ∑ j in Finset.range r, (fetchFn (i + j)).duration) := by
  intro r
  induction r with
  | zero => intro i; simp [pollBackendGo]
  | succ n ih =>
    intro i
    have h1 : ∀ j : Nat, i + (j + 1) = i + 1 + j := fun j => by omega
    have hsum : ∑ j in Finset.range (n + 1), (fetchFn (i + j)).duration
        = (∑ j in Finset.range n, (fetchFn (i + 1 + j)).duration) + (fetchFn i).duration := by
      rw [Finset.sum_range_succ']
      have h2 : (∑ j in Finset.range n, (fetchFn (i + (j + 1))).duration)
          = ∑ j in Finset.range n, (fetchFn (i + 1 + j)).duration :=
        Finset.sum_congr rfl fun j _ => by rw [h1 j]
      rw [h2]
      simp
    rw [pollBackendGo]
    cases hfi : (fetchFn i).result with
    | ok b =>
      cases b with
      | true => exact absurd hfi (hf i)
      | false =>
        simp [hfi, ih (i + 1), hsum]
        ring
    | error e =>
      simp [hfi, ih (i + 1), hsum]
      ring

/-- Same elapsed-time law for `waitForOnChainData` when the validator never
accepts and the query never throws. -/
theorem waitGo_never (query : Nat → QueryStep T) (validator : T → Bool) (delayMs : Nat)
    (hq : ∀ n d, (query n).result = Except.ok d → validator d = false)
    (hqe : ∀ n e, (query n).result ≠ Except.error e) :
    ∀ r i, waitForOnChainDataGo query validator delayMs r i =
      (.timedOut, r * delayMs + ∑ j in Finset.range r, (query (i + j)).duration) := by
  intro r
  induction r with
  | zero => intro i; simp [waitForOnChainDataGo]
  | succ n ih =>
    intro i
    have h1 : ∀ j : Nat, i + (j + 1) = i + 1 + j := fun j => by omega
    have hsum : ∑ j in Finset.range (n + 1), (query (i + j)).duration
        = (∑ j in Finset.range n, (query (i + 1 + j)).duration) + (query i).duration := by
      rw [Finset.sum_range_succ']
      have h2 : (∑ j in Finset.range n, (query (i + (j + 1))).duration)
          = ∑ j in Finset.range n, (query (i + 1 + j)).duration :=
        Finset.sum_congr rfl fun j _ => by rw [h1 j]
      rw [h2]
      simp
    rw [waitForOnChainDataGo]
    cases hfi : (query i).result with
    | ok d =>
      simp [hfi, hq i d hfi, ih (i + 1), hsum]
      ring
    | error e => exact absurd hfi (hqe i e)

/-- C5 counterexample: with `retries = 2`, `delayMs = 10` and a check that
takes 7 ms and always answers `false`, `pollBackend` times out after 34 ms —
more than `retries*delayMs` plus **one** check duration (27 ms), because the
loop pays one check duration per retry, not once overall. -/
theorem wait_timeout_budget_counterexample :
    pollBackend (fun _ => ⟨Except.ok false, 7⟩) 2 10 = (.timedOut, 34) ∧
      ¬(34 ≤ 2 * 10 + 7) := by
  constructor
  · rfl
  · decide

/-- C5 (amended): for every `{retries, delayMs}` WaitSpec and every check
that never becomes satisfied, both `{retries, delayMs}`-shaped primitives
terminate with a Timeout after exactly `retries * delayMs` plus the sum of
the `retries` check durations elapsed — in particular at least
`retries * delayMs`, and always finite. -/
theorem wait_timeout_budget (fetchFn : Nat → FetchStep) (query : Nat → QueryStep T)
    (validator : T → Bool) (retries delayMs : Nat)
    (hf : ∀ n, (fetchFn n).result ≠ Except.ok true)
    (hq : ∀ n d, (query n).result = Except.ok d → validator d = false)
    (hqe : ∀ n e, (query n).result ≠ Except.error e) :
    pollBackend fetchFn retries delayMs =
      (.timedOut, retries * delayMs + ∑ j in Finset.range retries, (fetchFn j).duration) ∧
    waitForOnChainData query validator retries delayMs =
      (.timedOut, retries * delayMs + ∑ j in Finset.range retries, (query j).duration) := by
  constructor
  · have h := pollBackendGo_never fetchFn delayMs hf retries 0
    simpa using h
  · have h := waitGo_never query validator delayMs hq hqe retries 0
    simpa using h

/-- Witness for the amended C5 at concrete inputs. -/
theorem wait_timeout_budget_witness :
    pollBackend (fun _ => ⟨Except.ok false, 3⟩) 2 10 = (.timedOut, 26) ∧
    waitForOnChainData (fun _ => (⟨Except.ok 0, 3⟩ : QueryStep Nat))
      (fun _ => false) 2 10 = (.timedOut, 26) := by
  have h := wait_timeout_budget (fun _ => ⟨Except.ok false, 3⟩)
    (fun _ => (⟨Except.ok 0, 3⟩ : QueryStep Nat)) (fun _ => false) 2 10
    (fun n => by simp) (fun n d _ => rfl) (fun n e => by simp)
  simpa using h

/-! ## Retry/backoff executor (`src/src/monitor-heavy/index.ts`, `uploadWithRetry`)

The operation's behaviour is a finite trace: the outcome of each successive
invocation of `mspClient.files.uploadFile`.  `none` marks a run that would
need more invocations than the trace provides (out of modelled behaviour);
every claim is about runs that settle within the trace. -/

/-- JavaScript's `msg.includes(pat)`, on the underlying character lists. -/
def strIncludes (msg pat : String) : Bool := decide (pat.toList <:+: msg.toList)

/-- The retryable-error classification of `uploadWithRetry` (monitor-heavy
lines 183–189). -/
def shouldRetryMsg (msg : String) : Bool :=
  strIncludes msg "not expecting" || strIncludes msg "HTTP 400" ||
  strIncludes msg "HTTP 403" || strIncludes msg "HTTP 404" ||
  strIncludes msg "timeout" || strIncludes msg "timed out"

/-- The reauthentication trigger of `uploadWithRetry` (line 192):
`msg.includes("HTTP 403")`. -/
def needsReAuth (msg : String) : Bool := strIncludes msg "HTTP 403"

/-- The backoff of `uploadWithRetry` (lines 206–209):
`Math.min(maxDelayMs, Math.floor(baseDelayMs * Math.pow(1.5, attempt - 1)))`,
in exact arithmetic: `1.5^k = 3^k / 2^k` and `Nat` division floors. -/
def nextDelay (maxDelayMs baseDelayMs attempt : Nat) : Nat :=
  min maxDelayMs (baseDelayMs * 3 ^ (attempt - 1) / 2 ^ (attempt - 1))

/-- Behaviour of one `uploadFile` invocation: success, or a failure with the
normalized error message, the call's duration, and the duration of the
`reAuth()` side effect should it be triggered. -/
inductive AttemptSpec where
  | succeeds (duration : Nat)
  | fails (msg : String) (duration : Nat) (reAuthMs : Nat)
  deriving DecidableEq, Repr

/-- How a settled `uploadWithRetry` run ended. -/
inductive RetryOutcome where
  | success
  | windowElapsedPre
  | windowElapsedPost (msg : String)
  | fatal (msg : String)
  deriving DecidableEq, Repr

/-- The `while (true)` loop of `uploadWithRetry` (lines 159–216). `attempt`
and `elapsed` are the loop's counter and `Date.now() - startedAt`; the
returned list holds the start time of each attempt actually made, in order.
`windowElapsedPre` is the throw at the loop head (line 163),
`windowElapsedPost` the re-throw after a retryable failure once the window
elapsed (line 203), `fatal` the immediate re-throw of a non-retryable
failure (line 214). -/
def uploadLoop (minRetries maxTotalMs baseDelayMs maxDelayMs : Nat)
    (trace : List AttemptSpec) (attempt elapsed : Nat) :
    Option (RetryOutcome × List Nat) :=
  if minRetries ≤ attempt ∧ maxTotalMs < elapsed then some (.windowElapsedPre, [])
  else
    match trace with
    | [] => none
    | .succeeds _ :: _ => some (.success, [elapsed])
    | .fails msg dur reAuthMs :: rest =>
      let postMs := elapsed + dur + (if needsReAuth msg then reAuthMs else 0)
      if shouldRetryMsg msg then
        if minRetries ≤ attempt + 1 ∧ maxTotalMs < postMs then
          some (.windowElapsedPost msg, [elapsed])
        else
          match uploadLoop minRetries maxTotalMs baseDelayMs maxDelayMs rest (attempt + 1)
              (postMs + nextDelay maxDelayMs baseDelayMs (attempt + 1)) with
          | none => none
          | some p => some (p.1, elapsed :: p.2)
      else some (.fatal msg, [elapsed])

/-- Function `uploadWithRetry` (monitor-heavy lines 138–217): the loop started with
`attempt = 0` at time 0. -/
def uploadWithRetry (minRetries maxTotalMs baseDelayMs maxDelayMs : Nat)
    (trace : List AttemptSpec) : Option (RetryOutcome × List Nat) :=
  uploadLoop minRetries maxTotalMs baseDelayMs maxDelayMs trace 0 0

/-- If the retry window expires (either throw site), at least `minRetries`
attempts were already made: the executor never gives up on time grounds
before `minAttempts` is satisfied. -/
theorem uploadLoop_window_min (minRetries maxTotalMs baseDelayMs maxDelayMs : Nat) :
    ∀ (trace : List AttemptSpec) (attempt elapsed : Nat) (o : RetryOutcome)
      (starts : List Nat),
      uploadLoop minRetries maxTotalMs baseDelayMs maxDelayMs trace attempt elapsed
        = some (o, starts) →
      (o = .windowElapsedPre ∨ ∃ m, o = .windowElapsedPost m) →
      minRetries ≤ attempt + starts.length := by
  intro trace
  induction trace with
  | nil =>
    intro attempt elapsed o starts h ho
    by_cases hg : minRetries ≤ attempt ∧ maxTotalMs < elapsed
    · rw [uploadLoop.eq_def, if_pos hg] at h
      simp only [Option.some.injEq, Prod.mk.injEq] at h
      obtain ⟨-, rfl⟩ := h
      simpa using hg.1
    · rw [uploadLoop.eq_def, if_neg hg] at h
      simp at h
  | cons s rest ih =>
    intro attempt elapsed o starts h ho
    by_cases hg : minRetries ≤ attempt ∧ maxTotalMs < elapsed
    · rw [uploadLoop.eq_def, if_pos hg] at h
      simp only [Option.some.injEq, Prod.mk.injEq] at h
      obtain ⟨-, rfl⟩ := h
      simpa using hg.1
    · rw [uploadLoop.eq_def, if_neg hg] at h
      cases s with
      | succeeds d =>
        simp only [Option.some.injEq, Prod.mk.injEq] at h
        obtain ⟨rfl, -⟩ := h
        rcases ho with ho | ⟨m, ho⟩ <;> exact absurd ho (by simp)
      | fails msg dur reAuthMs =>
        simp only at h
        by_cases hr : shouldRetryMsg msg = true
        · rw [if_pos hr] at h
          by_cases hw : minRetries ≤ attempt + 1 ∧
              maxTotalMs < elapsed + dur + (if needsReAuth msg then reAuthMs else 0)
          · rw [if_pos hw] at h
            simp only [Option.some.injEq, Prod.mk.injEq] at h
            obtain ⟨-, rfl⟩ := h
            have h1 := hw.1
            simp only [List.length_cons, List.length_nil]
            omega
          · rw [if_neg hw] at h
            cases hrec : uploadLoop minRetries maxTotalMs baseDelayMs maxDelayMs rest
                (attempt + 1)
                (elapsed + dur + (if needsReAuth msg then reAuthMs else 0) +
                  nextDelay maxDelayMs baseDelayMs (attempt + 1)) with
            | none => rw [hrec] at h; simp at h
            | some p =>
              rw [hrec] at h
              simp only [Option.some.injEq, Prod.mk.injEq] at h
              obtain ⟨h1, rfl⟩ := h
              have hle := ih (attempt + 1) _ p.1 p.2 hrec (by rw [← h1] at ho; exact ho)
              simp only [List.length_cons]
              omega
        · rw [if_neg hr] at h
          simp only [Option.some.injEq, Prod.mk.injEq] at h
          obtain ⟨rfl, -⟩ := h
          rcases ho with ho | ⟨m, ho⟩ <;> exact absurd ho (by simp)

/-- Once `minAttempts` is satisfied, no attempt starts after `maxTotalMs`:
the `k`-th attempt (0-based) with `minRetries ≤ attempt + k` has start time
at most `maxTotalMs`. -/
theorem uploadLoop_no_late_start (minRetries maxTotalMs baseDelayMs maxDelayMs : Nat) :
    ∀ (trace : List AttemptSpec) (attempt elapsed : Nat) (o : RetryOutcome)
      (starts : List Nat),
      uploadLoop minRetries maxTotalMs baseDelayMs maxDelayMs trace attempt elapsed
        = some (o, starts) →
      ∀ k (hk : k < starts.length), minRetries ≤ attempt + k →
        starts.get ⟨k, hk⟩ ≤ maxTotalMs := by
  intro trace
  induction trace with
  | nil =>
    intro attempt elapsed o starts h k hk hmin
    by_cases hg : minRetries ≤ attempt ∧ maxTotalMs < elapsed
    · rw [uploadLoop.eq_def, if_pos hg] at h
      simp only [Option.some.injEq, Prod.mk.injEq] at h
      obtain ⟨-, rfl⟩ := h
      exact absurd hk (by simp)
    · rw [uploadLoop.eq_def, if_neg hg] at h
      simp at h
  | cons s rest ih =>
    intro attempt elapsed o starts h k hk hmin
    by_cases hg : minRetries ≤ attempt ∧ maxTotalMs < elapsed
    · rw [uploadLoop.eq_def, if_pos hg] at h
      simp only [Option.some.injEq, Prod.mk.injEq] at h
      obtain ⟨-, rfl⟩ := h
      exact absurd hk (by simp)
    · rw [uploadLoop.eq_def, if_neg hg] at h
      rw [Decidable.not_and_iff_or_not] at hg
      cases s with
      | succeeds d =>
        simp only [Option.some.injEq, Prod.mk.injEq] at h
        obtain ⟨-, rfl⟩ := h
        have hk0 : k = 0 := by
          have := hk
          simp only [List.length_cons, List.length_nil] at this
          omega
        subst hk0
        simp only [List.get]
        rcases hg with hg | hg <;> omega
      | fails msg dur reAuthMs =>
        simp only at h
        by_cases hr : shouldRetryMsg msg = true
        · rw [if_pos hr] at h
          by_cases hw : minRetries ≤ attempt + 1 ∧
              maxTotalMs < elapsed + dur + (if needsReAuth msg then reAuthMs else 0)
          · rw [if_pos hw] at h
            simp only [Option.some.injEq, Prod.mk.injEq] at h
            obtain ⟨-, rfl⟩ := h
            have hk0 : k = 0 := by
              have := hk
              simp only [List.length_cons, List.length_nil] at this
              omega
            subst hk0
            simp only [List.get]
            rcases hg with hg | hg <;> omega
          · rw [if_neg hw] at h
            cases hrec : uploadLoop minRetries maxTotalMs baseDelayMs maxDelayMs rest
                (attempt + 1)
                (elapsed + dur + (if needsReAuth msg then reAuthMs else 0) +
                  nextDelay maxDelayMs baseDelayMs (attempt + 1)) with
            | none => rw [hrec] at h; simp at h
            | some p =>
              rw [hrec] at h
              simp only [Option.some.injEq, Prod.mk.injEq] at h
              obtain ⟨-, rfl⟩ := h
              cases k with
              | zero =>
                simp only [List.get]
                rcases hg with hg | hg <;> omega
              | succ k =>
                have hk2 : k < p.2.length := by simpa using hk
                have := ih (attempt + 1) _ p.1 p.2 hrec k hk2 (by omega)
                simpa using this
        · rw [if_neg hr] at h
          simp only [Option.some.injEq, Prod.mk.injEq] at h
          obtain ⟨-, rfl⟩ := h
          have hk0 : k = 0 := by
            have := hk
            simp only [List.length_cons, List.length_nil] at this
            omega
          subst hk0
          simp only [List.get]
          rcases hg with hg | hg <;> omega

/-- A non-retryable failure is re-raised immediately: the loop's result on a
trace whose head fails non-retryably is the fatal re-raise after that single
attempt, independent of the rest of the trace. -/
theorem uploadLoop_fatal_immediate (minRetries maxTotalMs baseDelayMs maxDelayMs : Nat)
    (msg : String) (dur reAuthMs : Nat) (rest : List AttemptSpec)
    (attempt elapsed : Nat) (hr : shouldRetryMsg msg = false)
    (hg : ¬(minRetries ≤ attempt ∧ maxTotalMs < elapsed)) :
    uploadLoop minRetries maxTotalMs baseDelayMs maxDelayMs
      (.fails msg dur reAuthMs :: rest) attempt elapsed = some (.fatal msg, [elapsed]) := by
  rw [uploadLoop.eq_def, if_neg hg]
  simp [hr]

/-- C7: for every RetrySpec and settled run, (1) if the run ends because the
retry window elapsed then at least `minRetries` attempts were made,
regardless of elapsed time; (2) once `minRetries` attempts are counted, no
attempt starts later than `maxTotalMs`; (3) a failure classified
non-retryable is re-raised immediately, with no further attempts (the result
does not depend on the remaining trace). -/
theorem retry_executor_budget (minRetries maxTotalMs baseDelayMs maxDelayMs : Nat)
    (trace : List AttemptSpec) (o : RetryOutcome) (starts : List Nat)
    (h : uploadWithRetry minRetries maxTotalMs baseDelayMs maxDelayMs trace
      = some (o, starts)) :
    ((o = .windowElapsedPre ∨ ∃ m, o = .windowElapsedPost m) →
      minRetries ≤ starts.length) ∧
    (∀ k (hk : k < starts.length), minRetries ≤ k → starts.get ⟨k, hk⟩ ≤ maxTotalMs) ∧
    (∀ (msg : String) (dur reAuthMs : Nat) (rest : List AttemptSpec)
        (attempt elapsed : Nat), shouldRetryMsg msg = false →
      ¬(minRetries ≤ attempt ∧ maxTotalMs < elapsed) →
      uploadLoop minRetries maxTotalMs baseDelayMs maxDelayMs
        (.fails msg dur reAuthMs :: rest) attempt elapsed
          = some (.fatal msg, [elapsed])) := by
  refine ⟨fun ho => ?_, fun k hk hmin => ?_,
    fun msg dur reAuthMs rest attempt elapsed hr hg =>
      uploadLoop_fatal_immediate minRetries maxTotalMs baseDelayMs maxDelayMs
        msg dur reAuthMs rest attempt elapsed hr hg⟩
  · have := uploadLoop_window_min minRetries maxTotalMs baseDelayMs maxDelayMs
      trace 0 0 o starts h ho
    simpa using this
  · exact uploadLoop_no_late_start minRetries maxTotalMs baseDelayMs maxDelayMs
      trace 0 0 o starts h k hk (by simpa using hmin)

/-- Witness for C7 on a concrete run: two retryable timeouts exhaust a
10 ms window only after the required 2 minimum attempts were made. -/
theorem retry_executor_budget_witness :
    (2 : Nat) ≤ ([0, 6] : List Nat).length :=
  (retry_executor_budget 2 10 0 100
    [.fails "timeout" 6 0, .fails "timeout" 6 0]
    (.windowElapsedPost "timeout") [0, 6] (by decide)).1
    (Or.inr ⟨"timeout", rfl⟩)

/-- C8 counterexample: with `baseDelayMs = 1`, the delay the code sleeps
after failed attempt `n = 2` is `Math.floor(1 * 1.5) = 1` ms, not the exact
`3/2` ms of the claim's formula `min(maxDelayMs, baseDelayMs * 1.5^(n-1))`. -/
theorem backoff_formula_counterexample :
    ((nextDelay 60000 1 2 : Nat) : ℚ) ≠ min (60000 : ℚ) ((1 : ℚ) * (3 / 2) ^ (2 - 1)) := by
  have h : nextDelay 60000 1 2 = 1 := by rfl
  rw [h]
  norm_num [min_def]

/-- C8 (amended): for every attempt number `n ≥ 1` on a retryable failure,
the backoff delay slept before attempt `n+1` equals
`min(maxDelayMs, ⌊baseDelayMs * 1.5^(n-1)⌋)` — the claimed formula with the
code's `Math.floor` applied to the exponential term. -/
theorem backoff_formula (maxDelayMs baseDelayMs n : Nat) (hn : 1 ≤ n) :
    nextDelay maxDelayMs baseDelayMs n =
      min maxDelayMs (Nat.floor ((baseDelayMs : ℚ) * (3 / 2) ^ (n - 1))) := by
  unfold nextDelay
  congr 1
  have hcast : ((baseDelayMs : ℚ) * (3 / 2) ^ (n - 1)) =
      ((baseDelayMs * 3 ^ (n - 1) : ℕ) : ℚ) / ((2 ^ (n - 1) : ℕ) : ℚ) := by
    push_cast
    rw [div_pow]
    ring
  rw [hcast, Nat.floor_div_nat, Nat.floor_natCast]

/-- Witness for the amended C8: after attempt 3 with base delay 10000 ms the
slept delay is `min(60000, ⌊10000 * 1.5^2⌋) = 22500` ms. -/
theorem backoff_formula_witness :
    nextDelay 60000 10000 3 =
      min 60000 (Nat.floor ((10000 : ℚ) * (3 / 2) ^ (3 - 1))) :=
  backoff_formula 60000 10000 3 (by decide)

/-! ## Bounded concurrency runner (`withConcurrency`, monitor-heavy
lines 318–331)

All workers share the single mutable index `idx`; in the single-threaded
event loop the read-and-post-increment `idx++` is atomic (no `await`
separates the read from the write), so across any interleaving of any
positive number of workers each index is claimed exactly once, in increasing
order, and every claimed index is dispatched to `fn` with its item.  The
dispatch trace is therefore that of a single sequential loop, independent of
the worker count, and `Promise.all` resolves only after every worker has
seen `idx ≥ items.length`, i.e. after all dispatches completed. -/

/-- Clamp `Math.max(1, concurrency)`: the number of workers spawned by
`new Array(Math.max(1, concurrency))`. -/
def effectiveWorkers (concurrency : Int) : Nat := (max 1 concurrency).toNat

/-- The shared-index dispatch loop: from `idx`, each step claims the current
index and invokes `fn(items[current], current)`. -/
def workerDispatches (items : List α) (idx : Nat) : List (α × Nat) :=
  if h : idx < items.length then
    (items.get ⟨idx, h⟩, idx) :: workerDispatches items (idx + 1)
  else []
termination_by items.length - idx

/-- Dispatch trace of `withConcurrency` (empty only if no worker exists,
which `Math.max(1, ·)` rules out). -/
def withConcurrency (items : List α) (concurrency : Int) : List (α × Nat) :=
  if 1 ≤ effectiveWorkers concurrency then workerDispatches items 0 else []

/-- The items dispatched from `idx` on are exactly the items from `idx` on. -/
theorem workerDispatches_map_fst (items : List α) :
    ∀ n idx, items.length - idx ≤ n →
      (workerDispatches items idx).map Prod.fst = items.drop idx := by
  intro n
  induction n with
  | zero =>
    intro idx hle
    rw [workerDispatches, dif_neg (by omega), List.drop_eq_nil_of_le (by omega)]
    rfl
  | succ n ih =>
    intro idx hle
    rw [workerDispatches]
    by_cases hlt : idx < items.length
    · rw [dif_pos hlt]
      simp only [List.map_cons]
      rw [ih (idx + 1) (by omega), List.drop_eq_getElem_cons hlt]
      simp [List.get_eq_getElem]
    · rw [dif_neg hlt, List.drop_eq_nil_of_le (by omega)]
      rfl

/-- The indices dispatched from `idx` on are `idx, idx+1, …` up to the item
count. -/
theorem workerDispatches_map_snd (items : List α) :
    ∀ n idx, items.length - idx ≤ n →
      (workerDispatches items idx).map Prod.snd
        = List.range' idx (items.length - idx) := by
  intro n
  induction n with
  | zero =>
    intro idx hle
    rw [workerDispatches, dif_neg (by omega)]
    have h0 : items.length - idx = 0 := by omega
    rw [h0]
    rfl
  | succ n ih =>
    intro idx hle
    rw [workerDispatches]
    by_cases hlt : idx < items.length
    · rw [dif_pos hlt]
      simp only [List.map_cons]
      rw [ih (idx + 1) (by omega)]
      have h1 : items.length - idx = (items.length - (idx + 1)) + 1 := by omega
      rw [h1, List.range'_succ]
    · rw [dif_neg hlt]
      have h0 : items.length - idx = 0 := by omega
      rw [h0]
      rfl

/-- C10: for every item list and every width `w ≤ 0`, the runner clamps the
worker count to 1, and the dispatch trace still invokes the worker function
exactly once per item, in input order, passing each item with its index —
a non-positive width neither deadlocks nor skips items. -/
theorem concurrency_clamp_dispatch (items : List α) (w : Int) (hw : w ≤ 0) :
    effectiveWorkers w = 1 ∧
    (withConcurrency items w).map Prod.fst = items ∧
    (withConcurrency items w).map Prod.snd = List.range items.length := by
  have h1 : effectiveWorkers w = 1 := by
    unfold effectiveWorkers
    have hmax : max 1 w = 1 := max_eq_left (by omega)
    rw [hmax]
    rfl
  refine ⟨h1, ?_, ?_⟩
  · unfold withConcurrency
    rw [h1, if_pos (le_refl 1)]
    have h2 := workerDispatches_map_fst items items.length 0 (by omega)
    simpa using h2
  · unfold withConcurrency
    rw [h1, if_pos (le_refl 1)]
    have h2 := workerDispatches_map_snd items items.length 0 (by omega)
    rw [List.range_eq_range']
    simpa using h2

/-- Witness for C10 at width `-2` on a three-item list. -/
theorem concurrency_clamp_dispatch_witness :
    effectiveWorkers (-2) = 1 ∧
    (withConcurrency [10, 20, 30] (-2)).map Prod.fst = [10, 20, 30] ∧
    (withConcurrency [10, 20, 30] (-2)).map Prod.snd = List.range 3 :=
  concurrency_clamp_dispatch [10, 20, 30] (-2) (by decide)

/-! ## Finalized-event wait (`forFinalizedEvent`, the user-api helper
embedded in `src/src/monitor-heavy/index.ts`, lines 1184–1216) -/

/-- Outcome of inspecting one finalized block's events. -/
inductive InspectOutcome where
  | found
  | notFound
  | raised
  deriving DecidableEq, Repr

/-- A finalized head delivered `arrival` ms after subscribing, with the
outcome of inspecting its events. -/
structure BlockSpec where
  arrival : Nat
  inspect : InspectOutcome
  deriving DecidableEq, Repr

/-- How the `forFinalizedEvent` promise settles. -/
inductive EventWaitOutcome where
  | resolved
  | rejectedError
  | rejectedTimeout
  deriving DecidableEq, Repr

/-- Function `forFinalizedEvent` on a stream of finalized heads in arrival order. The
`setTimeout` handler (line 1191) rejects with the timeout error and does
**not** unsubscribe; a block arriving before the deadline either resolves
(match found: `clearTimeout`, `(await unsub)()`, `resolve`) or rejects
(inspection threw: `clearTimeout`, `(await unsub)()`, `reject`), each after
exactly one unsubscribe, or is skipped when its events do not match.
Returns the settlement and the number of `unsub()` calls made by settlement
time. -/
def forFinalizedEvent : List BlockSpec → Nat → EventWaitOutcome × Nat
  | [], _ => (.rejectedTimeout, 0)
  | b :: rest, timeoutMs =>
    if b.arrival < timeoutMs then
      match b.inspect with
      | .found => (.resolved, 1)
      | .raised => (.rejectedError, 1)
      | .notFound => forFinalizedEvent rest timeoutMs
    else (.rejectedTimeout, 0)

/-- C6 counterexample: when no block arrives before the timeout, the promise
rejects with the timeout error after **zero** unsubscribes — the
finalized-heads subscription is not unsubscribed on timeout expiry. -/
theorem event_unsubscribe_counterexample :
    forFinalizedEvent [] 60000 = (.rejectedTimeout, 0) ∧ (0 : Nat) ≠ 1 := by
  constructor
  · rfl
  · decide

/-- C6 (amended): the subscription is unsubscribed exactly once when the
wait settles with a matching event or with an inspection error (after
skipping any number of non-matching blocks), but **zero** times when the
timeout expires: the timeout rejection leaks the subscription. -/
theorem event_unsubscribe_count (blocks : List BlockSpec) (timeoutMs : Nat) :
    (forFinalizedEvent blocks timeoutMs).2 =
      (if (forFinalizedEvent blocks timeoutMs).1 = .rejectedTimeout then 0 else 1) := by
  induction blocks with
  | nil => rfl
  | cons b rest ih =>
    rw [forFinalizedEvent]
    by_cases ha : b.arrival < timeoutMs
    · rw [if_pos ha]
      cases hb : b.inspect with
      | found => rfl
      | raised => rfl
      | notFound => exact ih
    · rw [if_neg ha]
      rfl

/-! ## Checkpoint-parameterized pipeline engine
(`runSanitySuite`, `src/src/_archive/sanity-old/healthcheck.ts`)

This is the engine with an explicit checkpoint target: after each stage
passes, `if (shouldStopAt(target, <stage>)) return` truncates the run; a
stage failure propagates to the `catch` block, which runs `cleanup` and sets
exit code 1.  At the `issue`, `upload`, `download` and `filedelete`
checkpoints the truncating `return` is preceded by `await cleanup(...)`; at
the `connection`, `health`, `siwe`, `bucket` and `bucketdelete` checkpoints
it is not.  The `finally` block always writes the status file. -/

/-- The ordered stage list of `runSanitySuite`. -/
def SANITY_STAGES : List String :=
  ["connection", "health", "siwe", "bucket", "issue", "upload", "download",
   "filedelete", "bucketdelete"]

/-- Predicate `shouldStopAt(target, checkpoint)` (healthcheck.ts line 170). -/
def shouldStopAt (target checkpoint : String) : Bool := target == checkpoint

/-- The checkpoints whose truncating `return` is preceded by a `cleanup`
call (healthcheck.ts lines 493–496, 530–533, 548–551, 571–574). -/
def cleanupTargets : List String := ["issue", "upload", "download", "filedelete"]

/-- The stage sequence of `runSanitySuite` (lines 375–596) as one loop over
the stage names, each stage behaving per `outcomes`.  Returns (stages whose
function ran, the `runStage` status updates in order, number of `cleanup`
invocations, exit code). -/
def sanityGo (outcomes : String → Except String Unit) (target : String) :
    List String → List String × List (String × StageStatus) × Nat × Nat
  | [] => ([], [], 0, 0)
  | s :: rest =>
    match outcomes s with
    | .error _ => ([s], [(s, .failed)], 1, 1)
    | .ok _ =>
      if shouldStopAt target s then
        ([s], [(s, .passed)], if s ∈ cleanupTargets then 1 else 0, 0)
      else
        let acc := sanityGo outcomes target rest
        (s :: acc.1, (s, .passed) :: acc.2.1, acc.2.2.1, acc.2.2.2)

/-- The observable outcome of one `runSanitySuite` run. -/
structure SanityRun where
  executed : List String
  results : List (String × StageStatus)
  cleanups : Nat
  exitCode : Nat
  statusFileWritten : Bool
  deriving Repr

/-- Function `runSanitySuite(target)` (lines 240–615): the stage loop over
`SANITY_STAGES`; the `finally` block always writes the status file. -/
def runSanitySuite (outcomes : String → Except String Unit) (target : String) :
    SanityRun :=
  let acc := sanityGo outcomes target SANITY_STAGES
  { executed := acc.1
    results := acc.2.1
    cleanups := acc.2.2.1
    exitCode := acc.2.2.2
    statusFileWritten := true }

/-- Executed stages never go past the checkpoint: on `l1 ++ X :: l2` with
`X ∉ l1` and target `X`, the executed list is a prefix of `l1 ++ [X]`. -/
theorem sanityGo_prefix (outcomes : String → Except String Unit) (X : String) :
    ∀ (l1 l2 : List String), X ∉ l1 →
      (sanityGo outcomes X (l1 ++ X :: l2)).1 <+: l1 ++ [X] := by
  intro l1
  induction l1 with
  | nil =>
    intro l2 _
    rw [List.nil_append, sanityGo]
    cases h : outcomes X with
    | error e => simp [h]
    | ok u =>
      have hstop : shouldStopAt X X = true := by simp [shouldStopAt]
      simp [h, hstop]
  | cons s l1' ih =>
    intro l2 hX
    have hsX : X ≠ s := fun hh => hX (by simp [hh])
    have hX' : X ∉ l1' := fun hh => hX (by simp [hh])
    rw [List.cons_append, sanityGo]
    cases h : outcomes s with
    | error e =>
      simp only [h]
      exact ⟨l1' ++ [X], rfl⟩
    | ok u =>
      have hstop : shouldStopAt X s = false := by
        simp only [shouldStopAt, beq_eq_false_iff_ne, ne_eq]
        exact hsX
      simp only [h, hstop, Bool.false_eq_true, if_false]
      rw [List.cons_append]
      exact (List.cons_prefix_cons).mpr ⟨rfl, ih l2 hX'⟩

/-- When every stage up to and including the checkpoint passes, the engine
executes exactly those stages, invokes cleanup exactly at the
cleanup-bearing checkpoints, and exits 0. -/
theorem sanityGo_all_pass (outcomes : String → Except String Unit) (X : String) :
    ∀ (l1 l2 : List String), X ∉ l1 → (∀ s ∈ l1, outcomes s = .ok ()) →
      outcomes X = .ok () →
      sanityGo outcomes X (l1 ++ X :: l2)
        = (l1 ++ [X], (l1 ++ [X]).map (fun s => (s, StageStatus.passed)),
            (if X ∈ cleanupTargets then 1 else 0), 0) := by
  intro l1
  induction l1 with
  | nil =>
    intro l2 _ _ hX
    rw [List.nil_append, sanityGo]
    have hstop : shouldStopAt X X = true := by simp [shouldStopAt]
    simp [hX, hstop]
  | cons s l1' ih =>
    intro l2 hX hok hXok
    have hsX : X ≠ s := fun hh => hX (by simp [hh])
    have hX' : X ∉ l1' := fun hh => hX (by simp [hh])
    have hs : outcomes s = .ok () := hok s (by simp)
    have hok' : ∀ u ∈ l1', outcomes u = .ok () := fun u hu => hok u (by simp [hu])
    have hstop : shouldStopAt X s = false := by
      simp only [shouldStopAt, beq_eq_false_iff_ne, ne_eq]
      exact hsX
    rw [List.cons_append, sanityGo]
    simp only [hs, hstop, Bool.false_eq_true, if_false]
    rw [ih l2 hX' hok' hXok]
    simp

/-- When the stages before `sf` all pass (and none is the checkpoint) and
`sf` fails, the engine executes exactly the stages through `sf`, invokes
cleanup once (the catch-block `cleanup("failure")`), and exits 1. -/
theorem sanityGo_first_failure (outcomes : String → Except String Unit)
    (X e : String) :
    ∀ (f1 f2 : List String) (sf : String), X ∉ f1 →
      (∀ u ∈ f1, outcomes u = .ok ()) → outcomes sf = .error e →
      sanityGo outcomes X (f1 ++ sf :: f2)
        = (f1 ++ [sf],
            f1.map (fun s => (s, StageStatus.passed)) ++ [(sf, StageStatus.failed)],
            1, 1) := by
  intro f1
  induction f1 with
  | nil =>
    intro f2 sf _ _ hsf
    rw [List.nil_append, sanityGo]
    simp [hsf]
  | cons s f1' ih =>
    intro f2 sf hX hok hsf
    have hsX : X ≠ s := fun hh => hX (by simp [hh])
    have hX' : X ∉ f1' := fun hh => hX (by simp [hh])
    have hs : outcomes s = .ok () := hok s (by simp)
    have hok' : ∀ u ∈ f1', outcomes u = .ok () := fun u hu => hok u (by simp [hu])
    have hstop : shouldStopAt X s = false := by
      simp only [shouldStopAt, beq_eq_false_iff_ne, ne_eq]
      exact hsX
    rw [List.cons_append, sanityGo]
    simp only [hs, hstop, Bool.false_eq_true, if_false]
    rw [ih f2 sf hX' hok' hsf]
    simp

/-- C2: with checkpoint target `X` (the stage list decomposing as
`l1 ++ X :: l2`, `X ∉ l1`): (1) no stage ordered after `X` is ever
executed — the executed list is a prefix of `l1 ++ [X]`; (2) if every stage
up to and including `X` passes, the run executes exactly `l1 ++ [X]` and
exits with code 0; (3) if instead the stages through some `sf` before the
checkpoint all pass and `sf` fails, the run stops at `sf` (first failure
comes first) and exits 1. -/
theorem sanity_checkpoint_execution (outcomes : String → Except String Unit)
    (X : String) (l1 l2 : List String)
    (hdecomp : SANITY_STAGES = l1 ++ X :: l2) (hX : X ∉ l1) :
    ((runSanitySuite outcomes X).executed <+: l1 ++ [X]) ∧
    ((∀ s ∈ l1, outcomes s = .ok ()) → outcomes X = .ok () →
      (runSanitySuite outcomes X).executed = l1 ++ [X] ∧
        (runSanitySuite outcomes X).exitCode = 0) ∧
    (∀ (f1 f2 : List String) (sf e : String), SANITY_STAGES = f1 ++ sf :: f2 →
      X ∉ f1 → (∀ u ∈ f1, outcomes u = .ok ()) → outcomes sf = .error e →
      (runSanitySuite outcomes X).executed = f1 ++ [sf] ∧
        (runSanitySuite outcomes X).exitCode = 1) := by
  refine ⟨?_, fun hok hXok => ?_, fun f1 f2 sf e hd2 hXf hok hsf => ?_⟩
  · show (sanityGo outcomes X SANITY_STAGES).1 <+: l1 ++ [X]
    rw [hdecomp]
    exact sanityGo_prefix outcomes X l1 l2 hX
  · constructor
    · show (sanityGo outcomes X SANITY_STAGES).1 = l1 ++ [X]
      rw [hdecomp, sanityGo_all_pass outcomes X l1 l2 hX hok hXok]
    · show (sanityGo outcomes X SANITY_STAGES).2.2.2 = 0
      rw [hdecomp, sanityGo_all_pass outcomes X l1 l2 hX hok hXok]
  · constructor
    · show (sanityGo outcomes X SANITY_STAGES).1 = f1 ++ [sf]
      rw [hd2, sanityGo_first_failure outcomes X e f1 f2 sf hXf hok hsf]
    · show (sanityGo outcomes X SANITY_STAGES).2.2.2 = 1
      rw [hd2, sanityGo_first_failure outcomes X e f1 f2 sf hXf hok hsf]

/-- Witness for C2: target `health` with all stages passing stops right
after `health` with exit code 0. -/
theorem sanity_checkpoint_execution_witness :
    (runSanitySuite (fun _ => Except.ok ()) "health").executed
        = ["connection", "health"] ∧
      (runSanitySuite (fun _ => Except.ok ()) "health").exitCode = 0 :=
  (sanity_checkpoint_execution (fun _ => Except.ok ()) "health" ["connection"]
    ["siwe", "bucket", "issue", "upload", "download", "filedelete", "bucketdelete"]
    rfl (by simp)).2.1 (fun s _ => rfl) rfl

/-- C3 counterexample: with every stage passing and checkpoint target
`bucket`, the run truncates early right after creating the bucket, yet the
cleanup controller is never invoked (0 cleanup calls): the truncating
`return` at the `bucket` checkpoint is not preceded by `cleanup`, so the
created resource is not rolled back. -/
theorem cleanup_on_truncation_counterexample :
    (runSanitySuite (fun _ => Except.ok ()) "bucket").executed
        = ["connection", "health", "siwe", "bucket"] ∧
      (runSanitySuite (fun _ => Except.ok ()) "bucket").exitCode = 0 ∧
      (runSanitySuite (fun _ => Except.ok ()) "bucket").cleanups = 0 :=
  ⟨rfl, rfl, rfl⟩

/-- The artifacts consulted by `cleanup` (healthcheck.ts lines 320–356),
with the outcome each deletion call would have if attempted. -/
structure CleanupEnv where
  hasStorageHubClient : Bool
  hasMspClient : Bool
  hasBucketId : Bool
  hasBucketName : Bool
  hasAdolphusFileKey : Bool
  uploadCompleted : Bool
  fileDeleteResult : Except String Unit
  bucketDeleteResult : Except String Unit

/-- A reverse operation attempted by `cleanup`, with its outcome (each
attempt is wrapped in its own `try`/`catch` that only logs). -/
inductive CleanupAction where
  | fileDeleteAttempt (result : Except String Unit)
  | bucketDeleteAttempt (result : Except String Unit)
  deriving Repr

/-- Function `cleanup` (lines 320–356): bail out unless the clients and the bucket
artifacts are all present; then attempt the file deletion (only if the file
key exists and the upload completed), then the bucket deletion; each
attempt's own failure is logged, never rethrown. Returns the attempts made,
in order. -/
def cleanup (env : CleanupEnv) : List CleanupAction :=
  if !(env.hasStorageHubClient && env.hasMspClient && env.hasBucketId &&
      env.hasBucketName) then []
  else
    (if env.hasAdolphusFileKey && env.uploadCompleted then
      [CleanupAction.fileDeleteAttempt env.fileDeleteResult]
    else []) ++ [CleanupAction.bucketDeleteAttempt env.bucketDeleteResult]

/-- C3 (amended): the cleanup controller is invoked on every stage failure,
and on truncation exactly at the `issue`, `upload`, `download` and
`filedelete` checkpoints — not at `connection`, `health`, `siwe`, `bucket`
or `bucketdelete`.  When invoked, it attempts the reverse operations in the
fixed order delete-submitted-file then delete-created-bucket, using only
artifacts actually present: everything is skipped (not failed) when the
clients or bucket artifacts are missing, the file step is skipped when the
file key is absent or the upload did not complete, the bucket attempt is
always the last action when anything is attempted, and a failing file
deletion never suppresses the bucket deletion attempt. -/
theorem sanity_cleanup_contract (outcomes : String → Except String Unit)
    (X : String) :
    (∀ (f1 f2 : List String) (sf e : String), SANITY_STAGES = f1 ++ sf :: f2 →
      X ∉ f1 → (∀ u ∈ f1, outcomes u = .ok ()) → outcomes sf = .error e →
      (runSanitySuite outcomes X).cleanups = 1) ∧
    (∀ (l1 l2 : List String), SANITY_STAGES = l1 ++ X :: l2 → X ∉ l1 →
      (∀ s ∈ l1, outcomes s = .ok ()) → outcomes X = .ok () →
      (runSanitySuite outcomes X).cleanups
        = (if X ∈ cleanupTargets then 1 else 0)) ∧
    (∀ env : CleanupEnv,
      ((env.hasStorageHubClient && env.hasMspClient && env.hasBucketId &&
          env.hasBucketName) = false → cleanup env = []) ∧
      ((∃ r, CleanupAction.fileDeleteAttempt r ∈ cleanup env) ↔
        (env.hasStorageHubClient && env.hasMspClient && env.hasBucketId &&
          env.hasBucketName && env.hasAdolphusFileKey && env.uploadCompleted)
            = true) ∧
      ((∃ r, CleanupAction.bucketDeleteAttempt r ∈ cleanup env) ↔
        (env.hasStorageHubClient && env.hasMspClient && env.hasBucketId &&
          env.hasBucketName) = true) ∧
      ((cleanup env).getLast?
        = if (env.hasStorageHubClient && env.hasMspClient && env.hasBucketId &&
            env.hasBucketName) = true
          then some (CleanupAction.bucketDeleteAttempt env.bucketDeleteResult)
          else none) ∧
      (∀ e, (∃ r, CleanupAction.bucketDeleteAttempt r ∈
          cleanup { env with fileDeleteResult := .error e }) ↔
        (∃ r, CleanupAction.bucketDeleteAttempt r ∈ cleanup env))) := by
  refine ⟨fun f1 f2 sf e hd hXf hok hsf => ?_, fun l1 l2 hd hX hok hXok => ?_,
    fun env => ?_⟩
  · show (sanityGo outcomes X SANITY_STAGES).2.2.1 = 1
    rw [hd, sanityGo_first_failure outcomes X e f1 f2 sf hXf hok hsf]
  · show (sanityGo outcomes X SANITY_STAGES).2.2.1 = _
    rw [hd, sanityGo_all_pass outcomes X l1 l2 hX hok hXok]
  · obtain ⟨a, b, c, d, f, u, fr, br⟩ := env
    cases a <;> cases b <;> cases c <;> cases d <;> cases f <;> cases u <;>
      simp [cleanup]

/-- Witness for the amended C3: truncation at the `issue` checkpoint with
all prior stages passing invokes cleanup exactly once. -/
theorem sanity_cleanup_contract_witness :
    (runSanitySuite (fun _ => Except.ok ()) "issue").cleanups = 1 := by
  have h := (sanity_cleanup_contract (fun _ => Except.ok ()) "issue").2.1
    ["connection", "health", "siwe", "bucket"]
    ["upload", "download", "filedelete", "bucketdelete"] rfl (by simp)
    (fun s _ => rfl) rfl
  simpa [cleanupTargets] using h

end DatahavenMonitor
